import Mathlib

/-!
Verification of the longpoll repository's per-client long-polling core
against its specification.

The core source is the Go program embedded in
`.github/copilot-instructions.md` (the per-client implementation:
`Event` and `ClientState` at lines 160-169, `subscribeHandler` at 203-221,
`pollHandler` at 224-260, `publishHandler` at 263-294,
`cleanUpInactiveClients` at 297-314); `main.go` wires the HTTP routes to
these handlers. The development embeds that code at two levels:

* a serialized handler model — the effect of one complete handler
  execution on the `clientChannels` map when no other goroutine interleaves
  with it, with a client's capacity-1 `chan Event` represented by its
  buffer (`Option Event`); a channel reachable from the map is always open,
  because `cleanUpInactiveClients` closes a channel only in the critical
  section that also deletes its entry (lines 305-309);

* a fine-grained model with an explicit channel store, in which each
  critical section and each channel action of the code is one atomic step,
  channels can be closed (receive on a closed-but-buffered channel drains
  the buffer, receive on a closed empty channel yields the zero-value
  Event, send on a closed channel panics), and `publishHandler`'s deposit
  is a separate step from its map lookup, as in the code where the send at
  line 289 runs after `mu.RUnlock()` at line 281.

Instants are natural numbers; the Go maps are association lists with
unique keys (an invariant proved below).
-/

namespace LongPoll

/-- Instants (`time.Time` values in the code), represented as natural
numbers; `time.Since(t)` at instant `now` is the truncated difference
`now - t`. -/
abbrev Instant := Nat

/-- The `Event` struct (lines 160-163): a message string and the `time.Now()`
instant stamped when the event is created at the publish site
(line 289). -/
structure Event where
  message : String
  timestamp : Instant
  deriving DecidableEq

/-- Association-list read of a Go `map[string]α`: `m[k]` with its comma-ok
form (`some` for present, `none` for absent). -/
def lookupA {α : Type} (m : List (String × α)) (k : String) : Option α :=
  match m with
  | [] => none
  | p :: ps => if p.1 = k then some p.2 else lookupA ps k

/-- Association-list update of a Go map at an existing key: replaces the
value stored under `k`, leaving all other keys untouched. -/
def setA {α : Type} (m : List (String × α)) (k : String) (v : α) :
    List (String × α) :=
  match m with
  | [] => []
  | p :: ps => (if p.1 = k then (p.1, v) else p) :: setA ps k v

/-- The keys of a Go map modelled as an association list. -/
def keysA {α : Type} (m : List (String × α)) : List String :=
  m.map Prod.fst

/-- The number of entries stored under a given key (1 for a well-formed
map, since Go map keys are unique). -/
def countA {α : Type} (m : List (String × α)) (k : String) : Nat :=
  match m with
  | [] => 0
  | p :: ps => (if p.1 = k then 1 else 0) + countA ps k

/-- Uniqueness of map keys: the invariant a Go `map[string]α` guarantees by
construction, proved below to be preserved by every operation of the
model. -/
def NodupKeysA {α : Type} (m : List (String × α)) : Prop :=
  (keysA m).Nodup

/-- The buffer of a client's capacity-1 `chan Event` (line 209 / line 234:
`make(chan Event, 1)`) in the serialized handler model: at most one
buffered Event. Channels reachable from `clientChannels` are always open
(close and delete share the sweeper's critical section, lines 305-309), so
the open/closed distinction is deferred to the fine-grained `ChanState`
below. -/
abbrev Mailbox := Option Event

/-- The `ClientState` struct (lines 166-169) in the serialized handler
model, with the channel represented by its buffer. -/
structure ClientEntry where
  mailbox : Mailbox
  lastSeen : Instant
  deriving DecidableEq

/-- The `clientChannels` map (line 173) in the serialized handler model. -/
abbrev Registry := List (String × ClientEntry)

/-- The lookup-or-create block of `pollHandler` (lines 231-244), executed
under `mu.Lock`: an existing entry gets `LastSeen = time.Now()` and is
returned; an absent clientId gets a fresh entry (new empty channel,
`LastSeen = time.Now()`) inserted and returned. -/
def getOrCreate (reg : Registry) (clientId : String) (now : Instant) :
    ClientEntry × Registry :=
  match lookupA reg clientId with
  | some entry =>
      let entry2 := { entry with lastSeen := now }
      (entry2, setA reg clientId entry2)
  | none =>
      let entry : ClientEntry := { mailbox := none, lastSeen := now }
      (entry, (clientId, entry) :: reg)

/-- The three outcomes of `publishHandler`'s core (lines 279-294): the
deposit is accepted (200), or rejected because the client is unknown (404)
or because its channel already holds an undelivered Event (the `select`
falls to `default`, 503). The handler's input validation (empty clientId,
malformed JSON, lines 264-277) happens before this core and is transport
glue outside the model. -/
inductive PublishResult where
  | accepted : PublishResult
  | rejectedNotFound : PublishResult
  | rejectedMailboxFull : PublishResult
  deriving DecidableEq

/-- The HTTP status `publishHandler` answers for each outcome: 200 at line
290, 404 at line 284, 503 at line 292. -/
def publishStatus : PublishResult → Nat
  | PublishResult.accepted => 200
  | PublishResult.rejectedNotFound => 404
  | PublishResult.rejectedMailboxFull => 503

/-- The core of `publishHandler` (lines 279-294) in the serialized handler
model: map read under `mu.RLock` (absent gives 404, no entry is created),
then a non-blocking `select` send of `Event{Message: req.Message, Time:
time.Now()}` — an empty buffer takes the deposit, a full buffer falls to
`default` and the new Event is discarded without touching the pending one.
The function is total: the handler never blocks. -/
def publish (reg : Registry) (clientId message : String) (now : Instant) :
    PublishResult × Registry :=
  match lookupA reg clientId with
  | none => (PublishResult.rejectedNotFound, reg)
  | some entry =>
      match entry.mailbox with
      | some _ => (PublishResult.rejectedMailboxFull, reg)
      | none =>
          let e : Event := { message := message, timestamp := now }
          (PublishResult.accepted,
           setA reg clientId { entry with mailbox := some e })

/-- The two outcomes of `pollHandler`'s `select` (lines 249-259): an Event
received from the channel (200), or the `time.After(30 * time.Second)`
timer firing (204). -/
inductive Outcome where
  | delivered : Event → Outcome
  | timedOut : Outcome
  deriving DecidableEq

/-- The core of `pollHandler` (lines 231-259) in the serialized handler
model: the lock block (`getOrCreate`, refreshing `LastSeen`), then the
`select` on the channel against the 30-second timer. The wall-clock wait is
collapsed: an Event that arrives during the window is a publish serialized
before the receive, so the outcome is decided by the buffer at that point —
a buffered Event is received (buffer emptied), an empty buffer means the
timer fires and the channel is left untouched. The 30-second duration
itself (line 247) is wall-clock behavior with no functional counterpart
here. -/
def poll (reg : Registry) (clientId : String) (now : Instant) :
    Outcome × Registry :=
  let gc := getOrCreate reg clientId now
  match gc.1.mailbox with
  | some e =>
      (Outcome.delivered e, setA gc.2 clientId { gc.1 with mailbox := none })
  | none => (Outcome.timedOut, gc.2)

/-- The idleness test of the sweeper (line 304):
`time.Since(clientState.LastSeen) > clientTimeout`, i.e.
`now - lastSeen > threshold` with truncated subtraction. -/
def isIdle (threshold now lastSeen : Instant) : Bool :=
  decide (threshold < now - lastSeen)

/-- The iteration of `cleanUpInactiveClients`' sweep (lines 302-311) over
the remaining entries: deletes each idle entry and records the logged
`len(clientChannels)` value — the count of clients remaining after that
deletion (line 307); `remaining` carries the current map size. -/
def sweepGo (ps : List (String × ClientEntry)) (threshold now : Instant)
    (remaining : Nat) : Registry × List Nat :=
  match ps with
  | [] => ([], [])
  | p :: rest =>
      if isIdle threshold now p.2.lastSeen then
        let r := sweepGo rest threshold now (remaining - 1)
        (r.1, (remaining - 1) :: r.2)
      else
        let r := sweepGo rest threshold now remaining
        (p :: r.1, r.2)

/-- One pass of the sweeper loop body of `cleanUpInactiveClients`
(lines 301-312), executed under `mu.Lock`: every entry with
`now - lastSeen > threshold` is deleted (its channel closed, modelled in
the fine-grained `evictW` below) and the remaining-client count is logged
after each deletion. The function returns the mutated map and the list of
logged counts — the Go function itself returns nothing. -/
def cleanUpSweep (reg : Registry) (threshold now : Instant) :
    Registry × List Nat :=
  sweepGo reg threshold now reg.length

/-- Fine-grained state of one `chan Event` of capacity 1: open or closed
(line 309 closes it), in both cases with its buffer. In Go, a receive on a
closed channel first drains the buffer and then yields the zero value, and
a send on a closed channel panics. -/
inductive ChanState where
  | live : Option Event → ChanState
  | closed : Option Event → ChanState
  deriving DecidableEq

/-- The `ClientState` struct (lines 166-169) in the fine-grained model: the
channel is held by reference — an index into the channel store — exactly as
the Go struct holds a `chan Event` value that survives the map entry's
deletion. -/
structure CState where
  channel : Nat
  lastSeen : Instant
  deriving DecidableEq

/-- The fine-grained shared state: the `clientChannels` map (entries point
into the channel store), every channel ever allocated, and whether some
goroutine has panicked (a send on a closed channel). -/
structure World where
  clients : List (String × CState)
  chans : List ChanState
  panicked : Bool
  deriving DecidableEq

/-- Read the channel store at an index. -/
def getChan : List ChanState → Nat → Option ChanState
  | [], _ => none
  | c :: _, 0 => some c
  | _ :: rest, Nat.succ n => getChan rest n

/-- Write the channel store at an index (no-op out of range). -/
def setChan : List ChanState → Nat → ChanState → List ChanState
  | [], _, _ => []
  | _ :: rest, 0, st => st :: rest
  | c :: rest, Nat.succ n, st => c :: setChan rest n st

/-- `close(ch)` (line 309): an open channel becomes closed, keeping its
buffer (Go lets receivers drain a closed channel's buffer); closing a
closed channel is modelled as a no-op. -/
def closeChan : ChanState → ChanState
  | ChanState.live b => ChanState.closed b
  | ChanState.closed b => ChanState.closed b

/-- Close the channel stored at one index. -/
def closeAt (chans : List ChanState) (cid : Nat) : List ChanState :=
  match getChan chans cid with
  | some st => setChan chans cid (closeChan st)
  | none => chans

/-- Close the channels at all the given indices. -/
def closeMany (chans : List ChanState) : List Nat → List ChanState
  | [] => chans
  | cid :: rest => closeMany (closeAt chans cid) rest

/-- How `pollHandler`'s blocking receive (line 250) ends: a buffered Event
is received; a closed empty channel yields the zero-value Event immediately
(the handler answers 200 with an empty Event, not 204); an open empty
channel blocks until the 30-second timer fires (an Event arriving during
the window is a send serialized before this step). -/
inductive ReceiveResult where
  | got : Event → ReceiveResult
  | gotZero : ReceiveResult
  | waitTimeout : ReceiveResult
  deriving DecidableEq

/-- How `publishHandler`'s `select` send (lines 288-293) ends: the deposit
lands in an empty open buffer; a full open buffer falls to `default`; a
send on a closed channel panics. -/
inductive SendResult where
  | sent : SendResult
  | chanFull : SendResult
  | sendPanic : SendResult
  deriving DecidableEq

/-- `subscribeHandler`'s critical section (lines 212-217): unconditionally
assigns a brand-new `ClientState` (fresh open empty channel, `LastSeen =
time.Now()`) to the clientId, replacing any existing entry; the old
channel is neither closed nor drained. -/
def subscribeW (w : World) (id : String) (now : Instant) : World :=
  { clients :=
      match lookupA w.clients id with
      | some _ => setA w.clients id ⟨w.chans.length, now⟩
      | none => (id, ⟨w.chans.length, now⟩) :: w.clients,
    chans := w.chans ++ [ChanState.live none],
    panicked := w.panicked }

/-- `pollHandler`'s lock block (lines 231-244) in the fine-grained model:
under `mu.Lock`, an existing entry gets `LastSeen = time.Now()` and its
channel is returned; an absent clientId gets a fresh entry with a new open
empty channel. -/
def pollLockW (w : World) (id : String) (now : Instant) : Nat × World :=
  match lookupA w.clients id with
  | some cs =>
      (cs.channel, { w with clients := setA w.clients id ⟨cs.channel, now⟩ })
  | none =>
      (w.chans.length,
       { w with clients := (id, ⟨w.chans.length, now⟩) :: w.clients,
                chans := w.chans ++ [ChanState.live none] })

/-- `publishHandler`'s read phase (lines 279-281): under `mu.RLock`, look
the clientId up and capture its channel; the map is not modified. The send
happens later, after `mu.RUnlock`. -/
def publishLookupW (w : World) (id : String) : Option Nat :=
  (lookupA w.clients id).map (fun cs => cs.channel)

/-- `publishHandler`'s send phase (lines 288-293), on the channel captured
by the read phase: a non-blocking `select` send of the freshly stamped
Event. On a closed channel the send panics (the entry was evicted between
`mu.RUnlock` and the send). Out-of-range indices (unreachable for channels
captured from the map) are a no-op. -/
def sendW (w : World) (cid : Nat) (msg : String) (now : Instant) :
    SendResult × World :=
  match getChan w.chans cid with
  | some (ChanState.live none) =>
      (SendResult.sent,
       { w with chans := setChan w.chans cid (ChanState.live (some ⟨msg, now⟩)) })
  | some (ChanState.live (some _)) => (SendResult.chanFull, w)
  | some (ChanState.closed _) =>
      (SendResult.sendPanic, { w with panicked := true })
  | none => (SendResult.chanFull, w)

/-- `pollHandler`'s receive (lines 249-259) on the channel captured by its
lock block: drains a buffered Event (open or closed channel), yields the
zero-value Event immediately on a closed empty channel, or — on an open
empty channel — waits until the 30-second timer fires. Out-of-range indices
(unreachable) time out. -/
def receiveW (w : World) (cid : Nat) : ReceiveResult × World :=
  match getChan w.chans cid with
  | some (ChanState.live (some e)) =>
      (ReceiveResult.got e,
       { w with chans := setChan w.chans cid (ChanState.live none) })
  | some (ChanState.closed (some e)) =>
      (ReceiveResult.got e,
       { w with chans := setChan w.chans cid (ChanState.closed none) })
  | some (ChanState.closed none) => (ReceiveResult.gotZero, w)
  | some (ChanState.live none) => (ReceiveResult.waitTimeout, w)
  | none => (ReceiveResult.waitTimeout, w)

/-- The sweeper's critical section (lines 301-312) in the fine-grained
model: under `mu.Lock`, every idle entry is deleted from the map and its
channel closed; buffered Events stay in the closed channels. -/
def evictW (w : World) (threshold now : Instant) : World :=
  { clients := w.clients.filter (fun p => !isIdle threshold now p.2.lastSeen),
    chans := closeMany w.chans
      ((w.clients.filter (fun p => isIdle threshold now p.2.lastSeen)).map
        (fun p => p.2.channel)),
    panicked := w.panicked }

/-- One atomic step of the fine-grained model: each constructor is one
critical section or one channel action of the code, so any concurrent
execution of the handlers and the sweeper is some sequence of these
steps — including the publish whose lookup and send are separated by other
steps. -/
inductive WOp where
  | wSubscribe : String → Instant → WOp
  | wPollLock : String → Instant → WOp
  | wReceive : Nat → WOp
  | wSend : Nat → String → Instant → WOp
  | wEvict : Instant → Instant → WOp
  deriving DecidableEq

/-- The world after one atomic step. -/
def applyW (w : World) : WOp → World
  | WOp.wSubscribe id now => subscribeW w id now
  | WOp.wPollLock id now => (pollLockW w id now).2
  | WOp.wReceive cid => (receiveW w cid).2
  | WOp.wSend cid msg now => (sendW w cid msg now).2
  | WOp.wEvict threshold now => evictW w threshold now

/-- The world after a sequence of atomic steps. -/
def runW (w : World) : List WOp → World
  | [] => w
  | o :: os => runW (applyW w o) os

/-- The process-start state: empty map, no channels, no panic. -/
def initWorld : World := ⟨[], [], false⟩

/-- The number of Events buffered in a channel-store cell (0 or 1, the
channel having capacity 1), whether the channel is open or closed. -/
def bufOf : Option ChanState → Nat
  | some (ChanState.live (some _)) => 1
  | some (ChanState.closed (some _)) => 1
  | _ => 0

/-- The number of Events buffered in channel `cid` of the world. -/
def bufferAt (w : World) (cid : Nat) : Nat :=
  bufOf (getChan w.chans cid)

/-- Per-channel event accounting along a trace: deposits that landed
(`sent`), buffered Events received (`got`), and zero-value receives from a
closed empty channel (`gotZero`). -/
structure WStats where
  sent : Nat
  got : Nat
  gotZero : Nat
  deriving DecidableEq

/-- The accounting contribution of one atomic step for channel `cid`. -/
def opWStats (w : World) (cid : Nat) : WOp → WStats
  | WOp.wSend c msg now =>
      { sent :=
          if c = cid then
            (match (sendW w c msg now).1 with
             | SendResult.sent => 1
             | _ => 0)
          else 0,
        got := 0, gotZero := 0 }
  | WOp.wReceive c =>
      { sent := 0,
        got :=
          if c = cid then
            (match (receiveW w c).1 with
             | ReceiveResult.got _ => 1
             | _ => 0)
          else 0,
        gotZero :=
          if c = cid then
            (match (receiveW w c).1 with
             | ReceiveResult.gotZero => 1
             | _ => 0)
          else 0 }
  | _ => { sent := 0, got := 0, gotZero := 0 }

/-- Componentwise sum of accounting records. -/
def addW (a b : WStats) : WStats :=
  ⟨a.sent + b.sent, a.got + b.got, a.gotZero + b.gotZero⟩

/-- The accounting for channel `cid` over a whole trace, together with the
final world. -/
def runWStats (w : World) (cid : Nat) : List WOp → WStats × World
  | [] => (⟨0, 0, 0⟩, w)
  | o :: os =>
      let rest := runWStats (applyW w o) cid os
      (addW (opWStats w cid o) rest.1, rest.2)

theorem lookupA_setA_self {α : Type} (m : List (String × α)) (k : String)
    (v : α) : lookupA (setA m k v) k = (lookupA m k).map (fun _ => v) := by
  induction m with
  | nil => rfl
  | cons p ps ih =>
      by_cases h : p.1 = k
      · simp [setA, lookupA, h]
      · simp [setA, lookupA, h, ih]

theorem lookupA_setA_ne {α : Type} (m : List (String × α)) (k c : String)
    (v : α) (h : c ≠ k) : lookupA (setA m k v) c = lookupA m c := by
  induction m with
  | nil => rfl
  | cons p ps ih =>
      obtain ⟨q, u⟩ := p
      by_cases hq : q = k
      · simp [setA, lookupA, hq, Ne.symm h, ih]
      · by_cases hc : q = c
        · simp [setA, lookupA, hq, hc, h]
        · simp [setA, lookupA, hq, hc, ih]

theorem keysA_setA {α : Type} (m : List (String × α)) (k : String) (v : α) :
    keysA (setA m k v) = keysA m := by
  induction m with
  | nil => rfl
  | cons p ps ih =>
      by_cases h : p.1 = k
      · simp [setA, keysA, h] at ih ⊢
        exact ih
      · simp [setA, keysA, h] at ih ⊢
        exact ih

theorem lookupA_eq_none_iff {α : Type} (m : List (String × α)) (k : String) :
    lookupA m k = none ↔ k ∉ keysA m := by
  induction m with
  | nil => simp [lookupA, keysA]
  | cons p ps ih =>
      obtain ⟨q, u⟩ := p
      by_cases hq : q = k
      · simp [lookupA, keysA, hq]
      · simp [lookupA, keysA, hq, ih, Ne.symm hq]

theorem countA_setA {α : Type} (m : List (String × α)) (k c : String)
    (v : α) : countA (setA m k v) c = countA m c := by
  induction m with
  | nil => rfl
  | cons p ps ih =>
      obtain ⟨q, u⟩ := p
      have hfst : ((if q = k then (q, v) else (q, u)) : String × α).1 = q := by
        split <;> rfl
      simp [setA, countA, hfst, ih]

theorem countA_eq_zero_of_lookupA_none {α : Type} (m : List (String × α))
    (k : String) (h : lookupA m k = none) : countA m k = 0 := by
  induction m with
  | nil => rfl
  | cons p ps ih =>
      obtain ⟨q, u⟩ := p
      by_cases hq : q = k
      · simp [lookupA, hq] at h
      · simp [lookupA, hq] at h
        simp [countA, hq, ih h]

theorem setA_setA {α : Type} (m : List (String × α)) (k : String) (a b : α) :
    setA (setA m k a) k b = setA m k b := by
  induction m with
  | nil => rfl
  | cons p ps ih =>
      obtain ⟨q, u⟩ := p
      by_cases hq : q = k <;> simp [setA, hq, ih]

theorem lookupA_filter_of_none {α : Type} (m : List (String × α))
    (c : String) (f : String × α → Bool) (h : lookupA m c = none) :
    lookupA (m.filter f) c = none := by
  induction m with
  | nil => rfl
  | cons p ps ih =>
      obtain ⟨q, u⟩ := p
      by_cases hq : q = c
      · simp [lookupA, hq] at h
      · simp [lookupA, hq] at h
        by_cases hf : f (q, u) <;> simp [List.filter_cons, hf, lookupA, hq, ih h]

theorem lookupA_filter_of_some {α : Type} (m : List (String × α))
    (c : String) (f : String × α → Bool) (v : α)
    (hnd : NodupKeysA m) (h : lookupA m c = some v) :
    lookupA (m.filter f) c = if f (c, v) then some v else none := by
  induction m with
  | nil => simp [lookupA] at h
  | cons p ps ih =>
      obtain ⟨q, u⟩ := p
      have hnd2 : NodupKeysA ps := by
        simp [NodupKeysA, keysA, List.nodup_cons] at hnd
        exact hnd.2
      by_cases hq : q = c
      · subst hq
        simp [lookupA] at h
        subst h
        have hnone : lookupA ps q = none := by
          rw [lookupA_eq_none_iff]
          simp [NodupKeysA, keysA, List.nodup_cons] at hnd
          simp [keysA]
          exact hnd.1
        by_cases hf : f (q, u)
        · simp [List.filter_cons, hf, lookupA]
        · simp [List.filter_cons, hf, lookupA_filter_of_none ps q f hnone]
      · simp [lookupA, hq] at h
        by_cases hf : f (q, u) <;>
          simp [List.filter_cons, hf, lookupA, hq, ih hnd2 h]

theorem publish_eq_of_lookup_none (reg : Registry) (id msg : String)
    (now : Instant) (h : lookupA reg id = none) :
    publish reg id msg now = (PublishResult.rejectedNotFound, reg) := by
  simp [publish, h]

theorem publish_eq_of_mailbox_some (reg : Registry) (id msg : String)
    (now : Instant) (entry : ClientEntry) (e : Event)
    (h1 : lookupA reg id = some entry) (h2 : entry.mailbox = some e) :
    publish reg id msg now = (PublishResult.rejectedMailboxFull, reg) := by
  simp [publish, h1, h2]

theorem publish_eq_of_mailbox_none (reg : Registry) (id msg : String)
    (now : Instant) (entry : ClientEntry)
    (h1 : lookupA reg id = some entry) (h2 : entry.mailbox = none) :
    publish reg id msg now =
      (PublishResult.accepted,
       setA reg id ⟨some ⟨msg, now⟩, entry.lastSeen⟩) := by
  obtain ⟨mb, ls⟩ := entry
  simp at h2
  subst h2
  simp [publish, h1]

theorem poll_eq_of_lookup_none (reg : Registry) (id : String) (now : Instant)
    (h : lookupA reg id = none) :
    poll reg id now = (Outcome.timedOut, (id, ⟨none, now⟩) :: reg) := by
  simp [poll, getOrCreate, h]

theorem poll_eq_of_mailbox_none (reg : Registry) (id : String) (now : Instant)
    (entry : ClientEntry) (h1 : lookupA reg id = some entry)
    (h2 : entry.mailbox = none) :
    poll reg id now = (Outcome.timedOut, setA reg id ⟨none, now⟩) := by
  obtain ⟨mb, ls⟩ := entry
  simp at h2
  subst h2
  simp [poll, getOrCreate, h1]

theorem poll_eq_of_mailbox_some (reg : Registry) (id : String) (now : Instant)
    (entry : ClientEntry) (e : Event) (h1 : lookupA reg id = some entry)
    (h2 : entry.mailbox = some e) :
    poll reg id now = (Outcome.delivered e, setA reg id ⟨none, now⟩) := by
  obtain ⟨mb, ls⟩ := entry
  simp at h2
  subst h2
  simp [poll, getOrCreate, h1, setA_setA]

theorem keysA_publish (reg : Registry) (id msg : String) (now : Instant) :
    keysA (publish reg id msg now).2 = keysA reg := by
  cases hl : lookupA reg id with
  | none => simp [publish, hl]
  | some entry =>
      cases hm : entry.mailbox with
      | none => simp [publish, hl, hm, keysA_setA]
      | some e => simp [publish, hl, hm]

theorem sweepGo_fst_eq_filter (ps : List (String × ClientEntry))
    (t n : Instant) :
    ∀ r : Nat, (sweepGo ps t n r).1
      = ps.filter (fun p => !isIdle t n p.2.lastSeen) := by
  induction ps with
  | nil => intro r; rfl
  | cons p rest ih =>
      intro r
      by_cases h : isIdle t n p.2.lastSeen <;>
        simp [sweepGo, List.filter_cons, h, ih]

theorem sweepGo_logs_length (ps : List (String × ClientEntry))
    (t n : Instant) :
    ∀ r : Nat, (sweepGo ps t n r).2.length
      = (ps.filter (fun p => isIdle t n p.2.lastSeen)).length := by
  induction ps with
  | nil => intro r; rfl
  | cons p rest ih =>
      intro r
      by_cases h : isIdle t n p.2.lastSeen <;>
        simp [sweepGo, List.filter_cons, h, ih]

theorem sweepGo_length_split (ps : List (String × ClientEntry))
    (t n : Instant) :
    ∀ r : Nat, ps.length
      = (sweepGo ps t n r).2.length + (sweepGo ps t n r).1.length := by
  induction ps with
  | nil => intro r; rfl
  | cons p rest ih =>
      intro r
      have h1 := ih (r - 1)
      have h2 := ih r
      by_cases h : isIdle t n p.2.lastSeen <;> simp [sweepGo, h] <;> omega

theorem getChan_setChan_self (l : List ChanState) (i : Nat) (st : ChanState) :
    getChan (setChan l i st) i = (getChan l i).map (fun _ => st) := by
  induction l generalizing i with
  | nil => rfl
  | cons c rest ih =>
      cases i with
      | zero => rfl
      | succ n => simp [getChan, setChan, ih]

theorem getChan_setChan_ne (l : List ChanState) (i j : Nat) (st : ChanState)
    (h : i ≠ j) : getChan (setChan l i st) j = getChan l j := by
  induction l generalizing i j with
  | nil => rfl
  | cons c rest ih =>
      cases i with
      | zero =>
          cases j with
          | zero => exact absurd rfl h
          | succ m => rfl
      | succ n =>
          cases j with
          | zero => rfl
          | succ m =>
              simp [getChan, setChan]
              exact ih n m (fun hh => h (congrArg Nat.succ hh))

theorem getChan_lt_length (l : List ChanState) (i : Nat) (st : ChanState)
    (h : getChan l i = some st) : i < l.length := by
  induction l generalizing i with
  | nil => simp [getChan] at h
  | cons c rest ih =>
      cases i with
      | zero => simp
      | succ n =>
          simp [getChan] at h
          have := ih n h
          simp
          omega

theorem getChan_none_of_le (l : List ChanState) (i : Nat)
    (h : l.length ≤ i) : getChan l i = none := by
  induction l generalizing i with
  | nil => rfl
  | cons c rest ih =>
      cases i with
      | zero => simp at h
      | succ n =>
          simp at h
          exact ih n h

theorem getChan_append_lt (l : List ChanState) (x : ChanState) (i : Nat)
    (h : i < l.length) : getChan (l ++ [x]) i = getChan l i := by
  induction l generalizing i with
  | nil => simp at h
  | cons c rest ih =>
      cases i with
      | zero => rfl
      | succ n =>
          simp at h
          exact ih n h

theorem getChan_append_self (l : List ChanState) (x : ChanState) :
    getChan (l ++ [x]) l.length = some x := by
  induction l with
  | nil => rfl
  | cons c rest ih => simpa [getChan] using ih

theorem bufOf_append_live_none (l : List ChanState) (i : Nat) :
    bufOf (getChan (l ++ [ChanState.live none]) i) = bufOf (getChan l i) := by
  rcases Nat.lt_trichotomy i l.length with h | h | h
  · rw [getChan_append_lt l _ i h]
  · subst h
    rw [getChan_append_self, getChan_none_of_le l _ (Nat.le_refl _)]
    rfl
  · rw [getChan_none_of_le (l ++ [ChanState.live none]) i (by simp; omega),
      getChan_none_of_le l i (Nat.le_of_lt h)]

theorem closeChan_closeChan (st : ChanState) :
    closeChan (closeChan st) = closeChan st := by
  cases st <;> rfl

theorem getChan_closeAt_self (chans : List ChanState) (cid : Nat) :
    getChan (closeAt chans cid) cid = (getChan chans cid).map closeChan := by
  cases hg : getChan chans cid with
  | none => simp [closeAt, hg]
  | some st => simp [closeAt, hg, getChan_setChan_self]

theorem getChan_closeAt_ne (chans : List ChanState) (cid j : Nat)
    (h : cid ≠ j) : getChan (closeAt chans cid) j = getChan chans j := by
  cases hg : getChan chans cid with
  | none => simp [closeAt, hg]
  | some st => simp [closeAt, hg, getChan_setChan_ne _ _ _ _ h]

theorem getChan_closeMany_not_mem (cids : List Nat) :
    ∀ chans : List ChanState, ∀ j : Nat, j ∉ cids →
      getChan (closeMany chans cids) j = getChan chans j := by
  induction cids with
  | nil => intro chans j h; rfl
  | cons c rest ih =>
      intro chans j h
      simp [List.mem_cons] at h
      rw [closeMany, ih (closeAt chans c) j h.2,
        getChan_closeAt_ne chans c j (Ne.symm h.1)]

theorem getChan_closeMany_mem (cids : List Nat) :
    ∀ chans : List ChanState, ∀ j : Nat, j ∈ cids →
      getChan (closeMany chans cids) j = (getChan chans j).map closeChan := by
  induction cids with
  | nil => intro chans j h; simp at h
  | cons c rest ih =>
      intro chans j h
      rw [closeMany]
      by_cases hjr : j ∈ rest
      · rw [ih (closeAt chans c) j hjr]
        by_cases hjc : j = c
        · subst hjc
          rw [getChan_closeAt_self]
          cases getChan chans j <;> simp [closeChan_closeChan]
        · rw [getChan_closeAt_ne chans c j (Ne.symm hjc)]
      · have hjc : j = c := by
          simp [List.mem_cons] at h
          rcases h with h | h
          · exact h
          · exact absurd h hjr
        subst hjc
        rw [getChan_closeMany_not_mem rest (closeAt chans j) j hjr,
          getChan_closeAt_self]

theorem bufOf_map_closeChan (x : Option ChanState) :
    bufOf (x.map closeChan) = bufOf x := by
  cases x with
  | none => rfl
  | some st =>
      cases st with
      | live b => cases b <;> rfl
      | closed b => cases b <;> rfl

theorem bufferAt_evictW (w : World) (t n : Instant) (cid : Nat) :
    bufferAt (evictW w t n) cid = bufferAt w cid := by
  unfold bufferAt evictW
  by_cases hm : cid ∈ (w.clients.filter
      (fun p => isIdle t n p.2.lastSeen)).map (fun p => p.2.channel)
  · rw [getChan_closeMany_mem _ _ _ hm, bufOf_map_closeChan]
  · rw [getChan_closeMany_not_mem _ _ _ hm]

theorem bufOf_le_one (x : Option ChanState) : bufOf x ≤ 1 := by
  cases x with
  | none => exact Nat.zero_le 1
  | some st =>
      cases st with
      | live b => cases b <;> simp [bufOf]
      | closed b => cases b <;> simp [bufOf]

theorem bufferAt_le_one (w : World) (cid : Nat) : bufferAt w cid ≤ 1 :=
  bufOf_le_one _

theorem sendW_clients (w : World) (cid : Nat) (msg : String)
    (now : Instant) : (sendW w cid msg now).2.clients = w.clients := by
  unfold sendW
  cases hg : getChan w.chans cid with
  | none => rfl
  | some st =>
      cases st with
      | live b => cases b <;> rfl
      | closed b => rfl

theorem receiveW_clients (w : World) (cid : Nat) :
    (receiveW w cid).2.clients = w.clients := by
  unfold receiveW
  cases hg : getChan w.chans cid with
  | none => rfl
  | some st =>
      cases st with
      | live b => cases b <;> rfl
      | closed b => cases b <;> rfl

theorem stepW_conservation (w : World) (cid : Nat) (o : WOp) :
    (opWStats w cid o).sent + bufferAt w cid
      = (opWStats w cid o).got + bufferAt (applyW w o) cid := by
  cases o with
  | wSubscribe id now =>
      simp [opWStats, applyW, subscribeW, bufferAt, bufOf_append_live_none]
  | wPollLock id now =>
      cases hl : lookupA w.clients id with
      | some cs => simp [opWStats, applyW, pollLockW, hl, bufferAt]
      | none =>
          simp [opWStats, applyW, pollLockW, hl, bufferAt,
            bufOf_append_live_none]
  | wReceive c =>
      by_cases hc : c = cid
      · subst hc
        cases hg : getChan w.chans c with
        | none => simp [opWStats, applyW, receiveW, hg, bufferAt]
        | some st =>
            cases st with
            | live b =>
                cases b with
                | none => simp [opWStats, applyW, receiveW, hg, bufferAt]
                | some e =>
                    simp [opWStats, applyW, receiveW, hg, bufferAt,
                      getChan_setChan_self, bufOf]
            | closed b =>
                cases b with
                | none => simp [opWStats, applyW, receiveW, hg, bufferAt]
                | some e =>
                    simp [opWStats, applyW, receiveW, hg, bufferAt,
                      getChan_setChan_self, bufOf]
      · have hstats : opWStats w cid (WOp.wReceive c) = ⟨0, 0, 0⟩ := by
          simp [opWStats, hc]
        cases hg : getChan w.chans c with
        | none => simp [hstats, applyW, receiveW, hg, bufferAt]
        | some st =>
            cases st with
            | live b =>
                cases b with
                | none => simp [hstats, applyW, receiveW, hg, bufferAt]
                | some e =>
                    simp [hstats, applyW, receiveW, hg, bufferAt,
                      getChan_setChan_ne _ c cid _ hc]
            | closed b =>
                cases b with
                | none => simp [hstats, applyW, receiveW, hg, bufferAt]
                | some e =>
                    simp [hstats, applyW, receiveW, hg, bufferAt,
                      getChan_setChan_ne _ c cid _ hc]
  | wSend c msg now =>
      by_cases hc : c = cid
      · subst hc
        cases hg : getChan w.chans c with
        | none => simp [opWStats, applyW, sendW, hg, bufferAt]
        | some st =>
            cases st with
            | live b =>
                cases b with
                | none =>
                    simp [opWStats, applyW, sendW, hg, bufferAt,
                      getChan_setChan_self, bufOf]
                | some e => simp [opWStats, applyW, sendW, hg, bufferAt]
            | closed b => simp [opWStats, applyW, sendW, hg, bufferAt]
      · have hstats : opWStats w cid (WOp.wSend c msg now) = ⟨0, 0, 0⟩ := by
          simp [opWStats, hc]
        cases hg : getChan w.chans c with
        | none => simp [hstats, applyW, sendW, hg, bufferAt]
        | some st =>
            cases st with
            | live b =>
                cases b with
                | none =>
                    simp [hstats, applyW, sendW, hg, bufferAt,
                      getChan_setChan_ne _ c cid _ hc]
                | some e => simp [hstats, applyW, sendW, hg, bufferAt]
            | closed b => simp [hstats, applyW, sendW, hg, bufferAt]
  | wEvict t n =>
      simp [opWStats, applyW, bufferAt_evictW]

theorem runWStats_snd (w : World) (cid : Nat) (ops : List WOp) :
    (runWStats w cid ops).2 = runW w ops := by
  induction ops generalizing w with
  | nil => rfl
  | cons o os ih => simp [runWStats, runW, ih]

theorem traceW_conservation (ops : List WOp) :
    ∀ w : World, ∀ cid : Nat,
      (runWStats w cid ops).1.sent + bufferAt w cid
        = (runWStats w cid ops).1.got
          + bufferAt (runWStats w cid ops).2 cid := by
  induction ops with
  | nil => intro w cid; simp [runWStats]
  | cons o os ih =>
      intro w cid
      have hstep := stepW_conservation w cid o
      have hrec := ih (applyW w o) cid
      simp [runWStats, addW]
      omega

theorem nodupKeysA_cons {α : Type} (m : List (String × α)) (k : String)
    (v : α) (hmem : k ∉ keysA m) (h : NodupKeysA m) :
    NodupKeysA ((k, v) :: m) := by
  unfold NodupKeysA
  have hk : keysA ((k, v) :: m) = k :: keysA m := rfl
  rw [hk, List.nodup_cons]
  exact ⟨hmem, h⟩

theorem nodupKeysA_filter {α : Type} (m : List (String × α))
    (f : String × α → Bool) (h : NodupKeysA m) :
    NodupKeysA (m.filter f) := by
  have hsub : List.Sublist (keysA (m.filter f)) (keysA m) :=
    List.Sublist.map Prod.fst (List.filter_sublist m)
  exact List.Nodup.sublist hsub h

theorem nodup_applyW (w : World) (o : WOp) (h : NodupKeysA w.clients) :
    NodupKeysA (applyW w o).clients := by
  cases o with
  | wSubscribe id now =>
      cases hl : lookupA w.clients id with
      | some cs =>
          simp [applyW, subscribeW, hl]
          simpa [NodupKeysA, keysA_setA] using h
      | none =>
          simp [applyW, subscribeW, hl]
          exact nodupKeysA_cons _ _ _ ((lookupA_eq_none_iff _ id).mp hl) h
  | wPollLock id now =>
      cases hl : lookupA w.clients id with
      | some cs =>
          simp [applyW, pollLockW, hl]
          simpa [NodupKeysA, keysA_setA] using h
      | none =>
          simp [applyW, pollLockW, hl]
          exact nodupKeysA_cons _ _ _ ((lookupA_eq_none_iff _ id).mp hl) h
  | wReceive cid => simpa [applyW, receiveW_clients] using h
  | wSend cid msg now => simpa [applyW, sendW_clients] using h
  | wEvict t n =>
      simp [applyW, evictW]
      exact nodupKeysA_filter _ _ h

theorem nodup_runW (ops : List WOp) :
    ∀ w : World, NodupKeysA w.clients → NodupKeysA (runW w ops).clients := by
  induction ops with
  | nil => exact fun w h => h
  | cons o os ih => exact fun w h => ih _ (nodup_applyW w o h)

/-- Claim C1: for every client whose mailbox already holds an unconsumed
Event, a publish attempt for that clientId returns Rejected(MailboxFull)
(HTTP 503) without overwriting the pending Event — the map is returned
unchanged, the new Event is discarded, and the original Event is still
delivered intact on the next poll. The last conjunct states the
non-blocking, non-overwriting send at the channel level: the `select`
against a full open channel falls to `default` and changes nothing. -/
theorem publish_full_rejected (reg : Registry) (id msg : String)
    (now t : Instant) (entry : ClientEntry) (e : Event)
    (h1 : lookupA reg id = some entry) (h2 : entry.mailbox = some e) :
    publish reg id msg now = (PublishResult.rejectedMailboxFull, reg) ∧
    publishStatus PublishResult.rejectedMailboxFull = 503 ∧
    (poll reg id t).1 = Outcome.delivered e ∧
    (∀ w : World, ∀ cid : Nat, ∀ e2 : Event,
        getChan w.chans cid = some (ChanState.live (some e2)) →
        sendW w cid msg now = (SendResult.chanFull, w)) := by
  refine ⟨publish_eq_of_mailbox_some reg id msg now entry e h1 h2, rfl,
    ?_, ?_⟩
  · rw [poll_eq_of_mailbox_some reg id t entry e h1 h2]
  · intro w cid e2 hg
    simp [sendW, hg]

/-- Witness for C1 at a concrete map with a pending Event. -/
theorem publish_full_rejected_witness :
    publish [("a", ⟨some ⟨"m", 1⟩, 0⟩)] "a" "x" 2
      = (PublishResult.rejectedMailboxFull, [("a", ⟨some ⟨"m", 1⟩, 0⟩)]) ∧
    publishStatus PublishResult.rejectedMailboxFull = 503 ∧
    (poll [("a", ⟨some ⟨"m", 1⟩, 0⟩)] "a" 3).1 = Outcome.delivered ⟨"m", 1⟩ ∧
    sendW ⟨[("a", ⟨0, 0⟩)], [ChanState.live (some ⟨"m", 1⟩)], false⟩ 0 "x" 2
      = (SendResult.chanFull,
         ⟨[("a", ⟨0, 0⟩)], [ChanState.live (some ⟨"m", 1⟩)], false⟩) := by
  have h := publish_full_rejected [("a", ⟨some ⟨"m", 1⟩, 0⟩)] "a" "x" 2 3
    ⟨some ⟨"m", 1⟩, 0⟩ ⟨"m", 1⟩ (by simp [lookupA]) rfl
  exact ⟨h.1, h.2.1, h.2.2.1,
    h.2.2.2 ⟨[("a", ⟨0, 0⟩)], [ChanState.live (some ⟨"m", 1⟩)], false⟩ 0
      ⟨"m", 1⟩ rfl⟩

/-- Claim C2: the lookup-or-create lock block of `pollHandler` is one
atomic step (it runs under `mu.Lock`): an existing entry keeps its channel
and gets `lastSeen = now`; an absent clientId gets a fresh entry with a new
open empty channel and `lastSeen = now` inserted. The key-uniqueness
invariant — never two entries for the same clientId — is preserved by every
atomic step of the fine-grained model and holds in every state reachable
from process start, and the serialization of two concurrent first-time
polls for the same clientId leaves exactly one entry for it. -/
theorem pollLock_atomic (w : World) (id : String) (now t1 t2 : Instant) :
    (∀ cs : CState, lookupA w.clients id = some cs →
        pollLockW w id now
          = (cs.channel,
             { w with clients := setA w.clients id ⟨cs.channel, now⟩ })) ∧
    (lookupA w.clients id = none →
        pollLockW w id now
          = (w.chans.length,
             { w with clients := (id, ⟨w.chans.length, now⟩) :: w.clients,
                      chans := w.chans ++ [ChanState.live none] }) ∧
        getChan (w.chans ++ [ChanState.live none]) w.chans.length
          = some (ChanState.live none)) ∧
    (∀ o : WOp, NodupKeysA w.clients → NodupKeysA (applyW w o).clients) ∧
    (∀ ops : List WOp, NodupKeysA (runW initWorld ops).clients) ∧
    (lookupA w.clients id = none →
        countA (runW w [WOp.wPollLock id t1, WOp.wPollLock id t2]).clients id
          = 1) := by
  refine ⟨?_, ?_, fun o h => nodup_applyW w o h,
    fun ops => nodup_runW ops initWorld (by simp [NodupKeysA, keysA, initWorld]),
    ?_⟩
  · intro cs h
    simp [pollLockW, h]
  · intro h
    exact ⟨by simp [pollLockW, h], getChan_append_self w.chans _⟩
  · intro h
    have s1 : (pollLockW w id t1).2
        = { w with clients := (id, ⟨w.chans.length, t1⟩) :: w.clients,
                   chans := w.chans ++ [ChanState.live none] } := by
      simp [pollLockW, h]
    have s2 : lookupA ((id, (⟨w.chans.length, t1⟩ : CState)) :: w.clients) id
        = some ⟨w.chans.length, t1⟩ := by
      simp [lookupA]
    show countA (pollLockW (pollLockW w id t1).2 id t2).2.clients id = 1
    rw [s1]
    simp [pollLockW, s2, countA_setA, countA,
      countA_eq_zero_of_lookupA_none w.clients id h]

/-- Witness for C2: creation at process start, and one entry after two
first-time polls for the same clientId. -/
theorem pollLock_atomic_witness :
    pollLockW initWorld "a" 5
      = (0, { clients := [("a", ⟨0, 5⟩)], chans := [ChanState.live none],
              panicked := false }) ∧
    countA (runW initWorld
        [WOp.wPollLock "a" 1, WOp.wPollLock "a" 2]).clients "a" = 1 := by
  have h := pollLock_atomic initWorld "a" 5 1 2
  exact ⟨(h.2.1 rfl).1, h.2.2.2.2 rfl⟩

/-- Claim C3: for every clientId with no entry in the map, publish returns
Rejected(NotFound) (HTTP 404) and leaves the map unchanged — no entry is
created as a side effect (the read phase runs under `mu.RLock` and only
reads). -/
theorem publish_unknown_rejected (reg : Registry) (id msg : String)
    (now : Instant) (h : lookupA reg id = none) :
    publish reg id msg now = (PublishResult.rejectedNotFound, reg) ∧
    publishStatus PublishResult.rejectedNotFound = 404 :=
  ⟨publish_eq_of_lookup_none reg id msg now h, rfl⟩

/-- Witness for C3 on the empty map. -/
theorem publish_unknown_rejected_witness :
    publish [] "a" "m" 0 = (PublishResult.rejectedNotFound, []) ∧
    publishStatus PublishResult.rejectedNotFound = 404 :=
  publish_unknown_rejected [] "a" "m" 0 rfl

/-- Claim C4: every poll call returns exactly one of two outcomes —
Delivered(Event), in which case the Event is consumed (the entry's buffer
is emptied) as a side effect, or TimedOut, in which case the buffer is left
untouched (still empty; only `lastSeen` is refreshed, and on a first-time
poll the fresh empty entry is inserted) — and never both. The 30-second
duration of the wait is the `time.After(30 * time.Second)` timer at line
247; the elapsed wall-clock time itself has no counterpart in this
embedding. -/
theorem poll_outcome_spec (reg : Registry) (id : String) (now : Instant) :
    ((poll reg id now).1 = Outcome.timedOut ∨
      ∃ e, (poll reg id now).1 = Outcome.delivered e) ∧
    (∀ e, ¬((poll reg id now).1 = Outcome.delivered e ∧
        (poll reg id now).1 = Outcome.timedOut)) ∧
    (∀ entry e, lookupA reg id = some entry → entry.mailbox = some e →
        poll reg id now = (Outcome.delivered e, setA reg id ⟨none, now⟩)) ∧
    (∀ entry, lookupA reg id = some entry → entry.mailbox = none →
        poll reg id now = (Outcome.timedOut, setA reg id ⟨none, now⟩)) ∧
    (lookupA reg id = none →
        poll reg id now = (Outcome.timedOut, (id, ⟨none, now⟩) :: reg)) := by
  refine ⟨?_, ?_, ?_, ?_, ?_⟩
  · cases hp : (poll reg id now).1 with
    | delivered e => exact Or.inr ⟨e, rfl⟩
    | timedOut => exact Or.inl rfl
  · intro e hpair
    exact Outcome.noConfusion (hpair.1.symm.trans hpair.2)
  · exact fun entry e h1 h2 => poll_eq_of_mailbox_some reg id now entry e h1 h2
  · exact fun entry h1 h2 => poll_eq_of_mailbox_none reg id now entry h1 h2
  · exact fun h => poll_eq_of_lookup_none reg id now h

/-- Witness for C4: a pending Event is delivered and consumed at a concrete
map. -/
theorem poll_outcome_spec_witness :
    poll [("a", ⟨some ⟨"m", 1⟩, 0⟩)] "a" 7
      = (Outcome.delivered ⟨"m", 1⟩,
         setA [("a", ⟨some ⟨"m", 1⟩, 0⟩)] "a" ⟨none, 7⟩) :=
  (poll_outcome_spec [("a", ⟨some ⟨"m", 1⟩, 0⟩)] "a" 7).2.2.1
    ⟨some ⟨"m", 1⟩, 0⟩ ⟨"m", 1⟩ (by simp [lookupA]) rfl

/-- Claim C5: for every pre-existing client entry with an empty buffer, an
accepted publish followed by a poll for the same clientId returns Delivered
with exactly the published message and an Event timestamp ≥ the publish
instant (the Event is stamped `time.Now()` at the send, line 289, and
passed through unchanged). -/
theorem publish_then_poll_delivers (reg : Registry) (id msg : String)
    (pubNow pollNow : Instant) (entry : ClientEntry)
    (h1 : lookupA reg id = some entry) (h2 : entry.mailbox = none) :
    (publish reg id msg pubNow).1 = PublishResult.accepted ∧
    ∃ e : Event,
      (poll (publish reg id msg pubNow).2 id pollNow).1 = Outcome.delivered e ∧
      e.message = msg ∧ pubNow ≤ e.timestamp := by
  have hpub := publish_eq_of_mailbox_none reg id msg pubNow entry h1 h2
  refine ⟨by rw [hpub], ⟨msg, pubNow⟩, ?_, rfl, Nat.le_refl pubNow⟩
  rw [hpub]
  have hl2 : lookupA (setA reg id ⟨some ⟨msg, pubNow⟩, entry.lastSeen⟩) id
      = some ⟨some ⟨msg, pubNow⟩, entry.lastSeen⟩ := by
    rw [lookupA_setA_self, h1]
    rfl
  rw [poll_eq_of_mailbox_some _ id pollNow _ ⟨msg, pubNow⟩ hl2 rfl]

/-- Witness for C5 at a concrete map with an empty buffer. -/
theorem publish_then_poll_delivers_witness :
    (publish [("a", ⟨none, 0⟩)] "a" "hi" 4).1 = PublishResult.accepted ∧
    ∃ e : Event,
      (poll (publish [("a", ⟨none, 0⟩)] "a" "hi" 4).2 "a" 9).1
        = Outcome.delivered e ∧
      e.message = "hi" ∧ 4 ≤ e.timestamp :=
  publish_then_poll_delivers [("a", ⟨none, 0⟩)] "a" "hi" 4 9
    ⟨none, 0⟩ (by simp [lookupA]) rfl

/-- Claim C6 (amended): one sweeper pass removes exactly the entries whose
`now - lastSeen > threshold`, closing each removed entry's channel (last
conjunct, in the fine-grained model), and leaves every other entry present
and unchanged; the number of removed entries equals the number of logged
remaining-client counts, but the function returns no count — `count
returned` has no counterpart in `cleanUpInactiveClients`, which returns
nothing. -/
theorem cleanUp_sweep_spec (reg : Registry) (threshold now : Instant)
    (w : World) :
    (cleanUpSweep reg threshold now).1
      = reg.filter (fun p => !isIdle threshold now p.2.lastSeen) ∧
    (∀ p ∈ reg, now - p.2.lastSeen ≤ threshold →
        p ∈ (cleanUpSweep reg threshold now).1) ∧
    (∀ p ∈ (cleanUpSweep reg threshold now).1,
        p ∈ reg ∧ now - p.2.lastSeen ≤ threshold) ∧
    (cleanUpSweep reg threshold now).2.length
      = (reg.filter (fun p => isIdle threshold now p.2.lastSeen)).length ∧
    reg.length = (cleanUpSweep reg threshold now).2.length
      + (cleanUpSweep reg threshold now).1.length ∧
    (∀ p ∈ w.clients, isIdle threshold now p.2.lastSeen = true →
        getChan (evictW w threshold now).chans p.2.channel
          = (getChan w.chans p.2.channel).map closeChan) := by
  refine ⟨sweepGo_fst_eq_filter reg threshold now reg.length, ?_, ?_,
    sweepGo_logs_length reg threshold now reg.length,
    sweepGo_length_split reg threshold now reg.length, ?_⟩
  · intro p hp hle
    rw [cleanUpSweep, sweepGo_fst_eq_filter, List.mem_filter]
    exact ⟨hp, by simp [isIdle, Nat.not_lt, hle]⟩
  · intro p hp
    rw [cleanUpSweep, sweepGo_fst_eq_filter, List.mem_filter] at hp
    refine ⟨hp.1, ?_⟩
    have h2 := hp.2
    simpa [isIdle, Nat.not_lt] using h2
  · intro p hp hidle
    have hmem : p.2.channel ∈ (w.clients.filter
        (fun q => isIdle threshold now q.2.lastSeen)).map
          (fun q => q.2.channel) :=
      List.mem_map_of_mem _ (List.mem_filter.mpr ⟨hp, hidle⟩)
    simp [evictW]
    exact getChan_closeMany_mem _ _ _ hmem

/-- Witness for C6 (amended): a fresh entry survives a sweep that removes
an idle one, and an idle entry's channel is closed. -/
theorem cleanUp_sweep_spec_witness :
    ("b", (⟨none, 10⟩ : ClientEntry))
      ∈ (cleanUpSweep [("a", ⟨none, 0⟩), ("b", ⟨none, 10⟩)] 3 10).1 ∧
    getChan (evictW ⟨[("a", ⟨0, 0⟩)], [ChanState.live none], false⟩
        3 10).chans 0
      = (getChan [ChanState.live none] 0).map closeChan := by
  have h := cleanUp_sweep_spec [("a", ⟨none, 0⟩), ("b", ⟨none, 10⟩)] 3 10
    ⟨[("a", ⟨0, 0⟩)], [ChanState.live none], false⟩
  exact ⟨h.2.1 ("b", ⟨none, 10⟩) (by simp) (by decide),
    h.2.2.2.2.2 ("a", ⟨0, 0⟩) (by simp) (by decide)⟩

/-- Counterexample to C6 as stated: on a map with two idle entries, the
sweep removes 2 entries; its entire output is the mutated map and the
logged remaining-client counts [1, 0] (line 307 logs `len(clientChannels)`
after each deletion). The removed count 2 is not returned and appears
nowhere in the output: `cleanUpInactiveClients` returns nothing. -/
theorem cleanUp_returns_no_count :
    cleanUpSweep [("a", ⟨none, 0⟩), ("b", ⟨none, 1⟩)] 3 100 = ([], [1, 0]) ∧
    (([1, 0] : List Nat) ≠ [2]) ∧
    ((2 : Nat) ∉ ([1, 0] : List Nat)) := by
  refine ⟨?_, ?_, ?_⟩ <;> decide

/-- Claim C8: publish never modifies any entry's `lastSeen` — whether the
deposit is accepted or rejected, every clientId maps to an entry with the
same `lastSeen` as before, and the key set is unchanged; in the
fine-grained model the send phase does not touch the client map at all
(and the read phase under `mu.RLock` is pure). Publish is a total function,
so it never blocks in the model. -/
theorem publish_preserves_lastSeen (reg : Registry) (id msg : String)
    (now : Instant) :
    keysA (publish reg id msg now).2 = keysA reg ∧
    (∀ c : String,
      (lookupA (publish reg id msg now).2 c).map ClientEntry.lastSeen
        = (lookupA reg c).map ClientEntry.lastSeen) ∧
    (∀ w : World, ∀ cid : Nat,
        (sendW w cid msg now).2.clients = w.clients) := by
  refine ⟨keysA_publish reg id msg now, ?_,
    fun w cid => sendW_clients w cid msg now⟩
  intro c
  cases hl : lookupA reg id with
  | none => rw [publish_eq_of_lookup_none reg id msg now hl]
  | some entry =>
      cases hm : entry.mailbox with
      | some e => rw [publish_eq_of_mailbox_some reg id msg now entry e hl hm]
      | none =>
          rw [publish_eq_of_mailbox_none reg id msg now entry hl hm]
          by_cases hc : c = id
          · subst hc
            rw [lookupA_setA_self, hl]
            rfl
          · rw [lookupA_setA_ne reg id c _ hc]

/-- Claim C9 (amended): each capacity-1 channel never buffers more than one
Event, and Events are conserved per channel over any interleaving of the
atomic steps (critical sections and channel actions) of the handlers and
the sweeper: successful sends plus the initially buffered Event equal
buffer receives plus the finally buffered Event — so no deposited Event is
ever duplicated and at most one poll consumes any given deposit. The claim
as stated fails on the racy interleavings: see the counterexample. -/
theorem channel_conservation (w : World) (cid : Nat) (ops : List WOp) :
    (runWStats w cid ops).2 = runW w ops ∧
    (runWStats w cid ops).1.sent + bufferAt w cid
      = (runWStats w cid ops).1.got
        + bufferAt (runWStats w cid ops).2 cid ∧
    (runWStats w cid ops).1.got
      ≤ (runWStats w cid ops).1.sent + bufferAt w cid ∧
    bufferAt w cid ≤ 1 ∧ bufferAt (runWStats w cid ops).2 cid ≤ 1 := by
  have hcons := traceW_conservation ops w cid
  exact ⟨runWStats_snd w cid ops, hcons, by omega, bufferAt_le_one w cid,
    bufferAt_le_one _ cid⟩

/-- Counterexample to C9 as stated, on interleavings of a concurrent
publish and eviction that the code allows because the deposit (line 289)
runs after `mu.RUnlock` (line 281): publish's read phase captures the
channel; if the sweeper then evicts the entry and closes the channel, the
send panics; a poll already blocked on the evicted channel receives the
zero-value Event instead of timing out; and on the serialization deposit,
evict, poll, the accepted deposit is stranded in the closed channel — no
poll through the registry ever consumes it (the fresh poll times out) — so
a deposited Event is lost and consumed by no poll. -/
theorem publish_evict_race_violates_handoff :
    (publishLookupW ⟨[("a", ⟨0, 0⟩)], [ChanState.live none], false⟩ "a"
      = some 0) ∧
    ((sendW (evictW ⟨[("a", ⟨0, 0⟩)], [ChanState.live none], false⟩ 0 100)
        0 "m" 101).1 = SendResult.sendPanic) ∧
    ((sendW (evictW ⟨[("a", ⟨0, 0⟩)], [ChanState.live none], false⟩ 0 100)
        0 "m" 101).2.panicked = true) ∧
    ((receiveW (evictW ⟨[("a", ⟨0, 0⟩)], [ChanState.live none], false⟩ 0 100)
        0).1 = ReceiveResult.gotZero) ∧
    (getChan (runW ⟨[("a", ⟨0, 0⟩)], [ChanState.live none], false⟩
        [WOp.wSend 0 "m" 1, WOp.wEvict 0 100, WOp.wPollLock "a" 101]).chans 0
      = some (ChanState.closed (some ⟨"m", 1⟩))) ∧
    ((receiveW (runW ⟨[("a", ⟨0, 0⟩)], [ChanState.live none], false⟩
        [WOp.wSend 0 "m" 1, WOp.wEvict 0 100, WOp.wPollLock "a" 101]) 1).1
      = ReceiveResult.waitTimeout) := by
  refine ⟨?_, ?_, ?_, ?_, ?_, ?_⟩ <;> decide

/-- Claim C10: for every clientId that already has an entry, subscribe
unconditionally replaces it with a fresh one — a brand-new open empty
channel and `lastSeen = now` — discarding any pending undelivered Event
held in the old channel (the old channel keeps its state but is no longer
reachable from the map, and the fresh channel is distinct from it), and a
poll still blocked on the old channel keeps waiting on an open empty
channel until its own timer fires (subscribe does not close the old
channel). -/
theorem subscribe_replaces_entry (w : World) (id : String) (now : Instant)
    (cs : CState) (h : lookupA w.clients id = some cs) :
    lookupA (subscribeW w id now).clients id = some ⟨w.chans.length, now⟩ ∧
    getChan (subscribeW w id now).chans w.chans.length
      = some (ChanState.live none) ∧
    (∀ st : ChanState, getChan w.chans cs.channel = some st →
        getChan (subscribeW w id now).chans cs.channel = some st ∧
        cs.channel ≠ w.chans.length) ∧
    (getChan w.chans cs.channel = some (ChanState.live none) →
        (receiveW (subscribeW w id now) cs.channel).1
          = ReceiveResult.waitTimeout) := by
  refine ⟨?_, ?_, ?_, ?_⟩
  · simp [subscribeW, h, lookupA_setA_self]
  · simp [subscribeW, getChan_append_self]
  · intro st hst
    have hlt := getChan_lt_length w.chans cs.channel st hst
    exact ⟨by simp [subscribeW, getChan_append_lt _ _ _ hlt, hst],
      Nat.ne_of_lt hlt⟩
  · intro hlive
    have hlt := getChan_lt_length w.chans cs.channel _ hlive
    simp [receiveW, subscribeW, getChan_append_lt _ _ _ hlt, hlive]

/-- Witness for C10: subscribing over an entry whose old channel holds a
pending Event installs a fresh empty channel under the clientId. -/
theorem subscribe_replaces_entry_witness :
    lookupA (subscribeW ⟨[("a", ⟨0, 0⟩)], [ChanState.live (some ⟨"m", 1⟩)],
        false⟩ "a" 9).clients "a" = some ⟨1, 9⟩ ∧
    getChan (subscribeW ⟨[("a", ⟨0, 0⟩)], [ChanState.live (some ⟨"m", 1⟩)],
        false⟩ "a" 9).chans 1 = some (ChanState.live none) ∧
    getChan (subscribeW ⟨[("a", ⟨0, 0⟩)], [ChanState.live (some ⟨"m", 1⟩)],
        false⟩ "a" 9).chans 0 = some (ChanState.live (some ⟨"m", 1⟩)) := by
  have h := subscribe_replaces_entry
    ⟨[("a", ⟨0, 0⟩)], [ChanState.live (some ⟨"m", 1⟩)], false⟩ "a" 9
    ⟨0, 0⟩ (by simp [lookupA])
  exact ⟨h.1, h.2.1, (h.2.2.1 (ChanState.live (some ⟨"m", 1⟩)) rfl).1⟩

end LongPoll
